import Mathlib

/-!
Verification of the CVS detection option (src/ips_options/ips_cvs.cc) and the
file-content identification pipeline (src/file_api/libs/file_lib.cc).

Byte buffers are modelled as `List Nat`; C pointer/length pairs become lists,
null pointers become `Option.none`.  Loops that advance a pointer are modelled
with an explicit fuel argument (one unit per iteration); a fuel of
`length + 1` is always sufficient, which is proved below, so the fuelled
functions compute the same results as the C loops.
-/

/- Byte constants used by the decoder: CVS_COMMAND_DELIMITER is the newline
byte 10, CVS_COMMAND_SEPARATOR is the space byte 32; the entry field uses the
slash byte 47 and the plus byte 43.  CVS_ENTRY_STR is the byte string
"Entry". -/
def entryBytes : List Nat := [69, 110, 116, 114, 121]

/-- The CvsTypes enum: the vulnerability kinds the rule option can request.
CVS_INVALID_ENTRY is the only real variant; CVS_END_OF_ENUM is its bound. -/
inductive CvsTypes
  | invalidEntry
  | endOfEnum
deriving DecidableEq, Repr

/-- CvsGetEOL: given the buffer and the current line start index, return
`(eol, eolm)`.  `eolm` marks the newline delimiter (or the buffer end when no
delimiter exists); `eol` points one past the delimiter (or the buffer end). -/
def cvsGetEOL (data : List Nat) (ptr : Nat) : Nat × Nat :=
  match (data.drop ptr).findIdx? (fun c => c == 10) with
  | none => (data.length, data.length)
  | some i => (ptr + i + 1, ptr + i)

/-- The CvsCommand structure: the command name bytes and the optional argument
bytes (the C struct stores pointer/length pairs; a list carries its length). -/
structure CvsCommand where
  cmd_str : List Nat
  cmd_arg : Option (List Nat)
deriving DecidableEq, Repr

/-- CvsGetCommand: split the line `[line, eolm)` at the first space byte into
command name and argument; with no space the whole line is the name and the
argument is absent (NULL). -/
def cvsGetCommand (data : List Nat) (line eolm : Nat) : CvsCommand :=
  let lb := (data.drop line).take (eolm - line)
  match lb.findIdx? (fun c => c == 32) with
  | some i => { cmd_str := lb.take i, cmd_arg := some (lb.drop (i + 1)) }
  | none => { cmd_str := lb, cmd_arg := none }

/-- CvsCmdCompare: length check then memcmp; `true` means equal (the C
function returns 0 on equality). -/
def cvsCmdCompare (cmd : List Nat) (pkt_cmd : List Nat) : Bool :=
  (pkt_cmd.length == cmd.length) && (pkt_cmd == cmd)

/-- One iteration step of the CvsValidateEntry while-loop, with fuel.
State: `s` is the `slashes` counter, the list is the remaining
`[entry_arg, end_arg)` range.  Results: `none` = fuel exhausted (never happens
at fuel > length, proved below); `some none` = early `return CVS_ENTRY_INVALID`
at the third-slash check; `some (some s)` = loop finished with `s` slashes
counted.  The memchr call is `dropWhile (b != 47)`. -/
def cvsValidateLoop : Nat → Nat → List Nat → Option (Option Nat)
  | 0, _, _ => none
  | _ + 1, s, [] => some (some s)
  | fuel + 1, s, c :: rest =>
    if s = 3 ∧ c ≠ 47 ∧ c ≠ 43 then some none
    else if c ≠ 47 then
      match (c :: rest).dropWhile (fun b => b != 47) with
      | [] => some (some s)
      | _ :: t => cvsValidateLoop fuel (s + 1) t
    else cvsValidateLoop fuel (s + 1) rest

/-- CvsValidateEntry: `none` models a NULL `entry_arg` (then `end_arg` is also
NULL and the function returns CVS_ENTRY_VALID); otherwise run the loop and
require exactly 5 slashes.  `true` = CVS_ENTRY_VALID. -/
def cvsValidateEntry (entry_arg : Option (List Nat)) : Bool :=
  match entry_arg with
  | none => true
  | some l =>
    match cvsValidateLoop (l.length + 1) 0 l with
    | some (some s) => s == 5
    | _ => false

/-- Whether one decoded line triggers the alert under the given rule-option
type: for CVS_INVALID_ENTRY, the command name equals "Entry" (CvsCmdCompare),
its argument is CVS_ENTRY_INVALID, and `eol < end`.  The triple is
`(line, eolm, eol)`. -/
def cvsLineTrigger (t : CvsTypes) (data : List Nat) (tr : Nat × Nat × Nat) : Bool :=
  match t with
  | .invalidEntry =>
    let cmd := cvsGetCommand data tr.1 tr.2.1
    cvsCmdCompare entryBytes cmd.cmd_str && !cvsValidateEntry cmd.cmd_arg
      && decide (tr.2.2 < data.length)
  | .endOfEnum => false

/-- The CvsDecode while-loop, with fuel.  `none` = fuel exhausted;
`some true` = CVS_ALERT; `some false` = CVS_NO_ALERT at end of buffer.
The `command.cmd_str == NULL` guard of the C code is unreachable here because
`line` is never NULL inside the loop. -/
def cvsDecodeLoop : Nat → CvsTypes → List Nat → Nat → Option Bool
  | 0, _, _, _ => none
  | fuel + 1, t, data, line =>
    if line < data.length then
      let p := cvsGetEOL data line
      if cvsLineTrigger t data (line, p.2, p.1) then some true
      else cvsDecodeLoop fuel t data p.1
    else some false

/-- CvsDecode over the whole buffer; `true` = CVS_ALERT. -/
def cvsDecode (t : CvsTypes) (data : List Nat) : Bool :=
  (cvsDecodeLoop (data.length + 1) t data 0).getD false

/-- The list of `(line, eolm, eol)` triples produced by repeatedly applying
CvsGetEOL from the given start index, with fuel (spec-side decomposition of
the buffer into lines). -/
def cvsLinesLoop : Nat → List Nat → Nat → Option (List (Nat × Nat × Nat))
  | 0, _, _ => none
  | fuel + 1, data, line =>
    if line < data.length then
      let p := cvsGetEOL data line
      match cvsLinesLoop fuel data p.1 with
      | none => none
      | some ls => some ((line, p.2, p.1) :: ls)
    else some []

/-- All lines of a buffer. -/
def cvsLines (data : List Nat) : List (Nat × Nat × Nat) :=
  (cvsLinesLoop (data.length + 1) data 0).getD []

/-- Lower-casing of an ASCII byte (for stating the spec's claim that command
names are compared case-insensitively). -/
def toLowerByte (c : Nat) : Nat := if 65 ≤ c ∧ c ≤ 90 then c + 32 else c

/-- Case-insensitive equality with the byte string "Entry", following the
spec sentence that the command name is matched case-insensitively. -/
def ciEqEntry (name : List Nat) : Bool :=
  name.map toLowerByte == entryBytes.map toLowerByte

/-- A line trigger as the claim words it: case-insensitive name match,
argument Invalid, at least one more byte after the line. -/
def cvsLineTriggerCI (data : List Nat) (tr : Nat × Nat × Nat) : Bool :=
  let cmd := cvsGetCommand data tr.1 tr.2.1
  ciEqEntry cmd.cmd_str && !cvsValidateEntry cmd.cmd_arg
    && decide (tr.2.2 < data.length)

/-- Number of slashes in the byte range (spec-side separator count). -/
def slashCount (l : List Nat) : Nat := l.countP (fun c => c == 47)

/-- The byte range remaining immediately after the n-th slash, or `none` when
there are fewer than n slashes (spec-side). -/
def afterNthSlash : Nat → List Nat → Option (List Nat)
  | 0, l => some l
  | n + 1, l =>
    match l.dropWhile (fun b => b != 47) with
    | [] => none
    | _ :: t => afterNthSlash n t

/-- The detection-option evaluation result (DETECTION_OPTION_MATCH and
DETECTION_OPTION_NO_MATCH). -/
inductive CvsEvalResult
  | detMatch
  | detNoMatch
deriving DecidableEq, Repr

/-- The relevant fields of a Packet: the TCP header pointer, the payload
pointer and the payload size dsize. -/
structure Packet where
  tcph : Option Unit
  data : Option (List Nat)
  dsize : Nat
deriving DecidableEq

/-- CvsOption::eval: NULL packet, NULL tcph, NULL data or zero dsize give
NO_MATCH; otherwise CvsDecode over dsize bytes of the payload decides
(the `cvs_rule_option == NULL` guard is vacuous: the option is the address of
an owned member). -/
def cvsEval (config : CvsTypes) (p : Option Packet) : CvsEvalResult :=
  match p with
  | none => .detNoMatch
  | some pk =>
    match pk.tcph, pk.data with
    | none, _ => .detNoMatch
    | _, none => .detNoMatch
    | some _, some d =>
      if pk.dsize = 0 then .detNoMatch
      else if cvsDecode config (d.take pk.dsize) then .detMatch
      else .detNoMatch

/-- File type classification state (SNORT_FILE_TYPE_CONTINUE,
SNORT_FILE_TYPE_UNKNOWN, or a concrete identified type id). -/
inductive FileTypeState
  | cont
  | unknown
  | identified (id : Nat)
deriving DecidableEq, Repr

/-- The FileProcessType enum values used by the depth limiter:
SNORT_FILE_TYPE_ID, SNORT_FILE_SHA256, and any other member (the switch
default). -/
inductive FileProcessType
  | typeId
  | sigSha256
  | other
deriving DecidableEq, Repr

/-- FilePosition: where a chunk falls within the stream (SNORT_FILE_START,
SNORT_FILE_MIDDLE, SNORT_FILE_END, SNORT_FILE_FULL, plus the switch-default
position). -/
inductive FilePosition
  | start
  | middle
  | end_
  | full
  | posOther
deriving DecidableEq, Repr

/-- FileConfig: the two per-kind inspection depths read by the depth
limiter. -/
structure FileConfig where
  file_type_depth : Nat
  file_signature_depth : Nat
deriving DecidableEq, Repr

/-- FileContext: per-flow mutable state.  The SHA256_CTX incremental digest
state is modelled as the list of bytes fed so far (SHA256UPDATE appends; a
freshly allocated/initialized context is `some []`, an absent one `none`).
The 32-byte digest itself is obtained by an abstract finalization function
passed to `file_signature_sha256`. -/
structure FileContext where
  file_config : Option FileConfig
  processed_bytes : Nat
  file_type_id : FileTypeState
  file_type_context : Option Nat
  file_signature_context : Option (List Nat)
  sha256 : Option (List Nat)
  file_name : Option (List Nat)
  file_name_size : Nat
  file_size : Nat
  upload : Bool
deriving DecidableEq, Repr

/-- get_data_size_from_depth_limit: returns the possibly reduced size to
process, or -1 as the stop sentinel.  Mirrors the C switch: no config passes
the size through; the TYPE_ID and SHA256 cases select their depth; any other
type returns the size unmodified.  `data_size` is a chunk length, hence a
Nat (the C int is nonnegative at every call site). -/
def get_data_size_from_depth_limit (context : FileContext) (t : FileProcessType)
    (data_size : Nat) : Int :=
  match context.file_config with
  | none => data_size
  | some file_config =>
    match (match t with
           | .typeId => some file_config.file_type_depth
           | .sigSha256 => some file_config.file_signature_depth
           | .other => none) with
    | none => data_size
    | some max_depth =>
      if context.processed_bytes > max_depth then -1
      else if context.processed_bytes + data_size > max_depth then
        ((max_depth - context.processed_bytes : Nat) : Int)
      else data_size

/-- file_type_id (the C function of the same name).  The injected classifier
`cl` models file_config->find_file_type_id: it receives the chunk bytes, the
(possibly clamped) length and the current classifier continuation state
(context->file_type_context, which the C classifier reads and writes through
the context pointer), and returns the new classification plus the new
continuation state.  The null-context behaviour is in
`file_type_id_checked` below. -/
def file_type_id (cl : List Nat → Nat → Option Nat → FileTypeState × Option Nat)
    (context : FileContext) (file_data : List Nat) (data_size : Nat)
    (position : FilePosition) : FileContext :=
  if context.file_type_id ≠ .cont then context
  else
    let ds := get_data_size_from_depth_limit context .typeId data_size
    if ds < 0 then { context with file_type_id := .unknown }
    else
      match position with
      | .start =>
        let r := cl file_data ds.toNat none
        { context with file_type_id := r.1, file_type_context := r.2 }
      | .middle =>
        let r := cl file_data ds.toNat context.file_type_context
        { context with file_type_id := r.1, file_type_context := r.2 }
      | .end_ =>
        let r := cl file_data ds.toNat context.file_type_context
        { context with
            file_type_id := if r.1 = .cont then .unknown else r.1,
            file_type_context := r.2 }
      | .full =>
        let r := cl file_data ds.toNat none
        { context with
            file_type_id := if r.1 = .cont then .unknown else r.1,
            file_type_context := r.2 }
      | .posOther => context

/-- The crash outcomes a call can take in this embedding. -/
inductive FileCrash
  | nullContextDeref
deriving DecidableEq, Repr

/-- file_type_id as called with a possibly NULL context.  The C function reads
`context->file_config` (line 82) BEFORE its `if (!context) return;` guard
(line 84), so a NULL context dereferences a null pointer instead of reaching
the guard; that is modelled as a crash. -/
def file_type_id_checked (cl : List Nat → Nat → Option Nat → FileTypeState × Option Nat)
    (context : Option FileContext) (file_data : List Nat) (data_size : Nat)
    (position : FilePosition) : Except FileCrash (Option FileContext) :=
  match context with
  | none => Except.error .nullContextDeref
  | some c => Except.ok (some (file_type_id cl c file_data data_size position))

/-- file_signature_sha256.  `h` is the abstract SHA256 finalization
(SHA256FINAL) applied to all bytes fed into the incremental state; SHA256INIT
resets the state to `some []`; SHA256UPDATE appends the processed bytes.  A
context allocated on the MIDDLE/END paths without an INIT call (SnortAlloc
zero-fills it) is likewise modelled as the fresh state `some []`. -/
def file_signature_sha256 (h : List Nat → List Nat) (context : FileContext)
    (file_data : List Nat) (data_size : Nat) (position : FilePosition) : FileContext :=
  let ds := get_data_size_from_depth_limit context .sigSha256 data_size
  if ds < 0 then context
  else
    let fed := file_data.take ds.toNat
    match position with
    | .start => { context with file_signature_context := some fed }
    | .middle =>
      { context with
          file_signature_context :=
            some ((context.file_signature_context.getD []) ++ fed) }
    | .end_ =>
      let st := (context.file_signature_context.getD []) ++ fed
      { context with file_signature_context := some st, sha256 := some (h st) }
    | .full =>
      { context with file_signature_context := some fed, sha256 := some (h fed) }
    | .posOther => context

/-- file_signature_sha256 as called with a possibly NULL context: its
`if (!context) return;` guard comes first, so NULL is a clean no-op. -/
def file_signature_sha256_checked (h : List Nat → List Nat)
    (context : Option FileContext) (file_data : List Nat) (data_size : Nat)
    (position : FilePosition) : Option FileContext :=
  match context with
  | none => none
  | some c => some (file_signature_sha256 h c file_data data_size position)

/-- A freshly created context with no configuration and no accumulated
state. -/
def freshFileContext : FileContext :=
  { file_config := none
    processed_bytes := 0
    file_type_id := .cont
    file_type_context := none
    file_signature_context := none
    sha256 := none
    file_name := none
    file_name_size := 0
    file_size := 0
    upload := false }

/-- The depth-limiter rule as the spec words it: no configured depth for the
kind passes the request through; `processed > depth` stops; an overshoot is
clamped to the remaining budget; otherwise the full length passes. -/
def depthRuleSpec (processed : Nat) (md : Option Nat) (len : Nat) : Int :=
  match md with
  | none => len
  | some d =>
    if processed > d then -1
    else if processed + len > d then ((d - processed : Nat) : Int)
    else len

/-- The depth configured for a classification kind in a context, if any. -/
def maxDepthFor (context : FileContext) (t : FileProcessType) : Option Nat :=
  match context.file_config, t with
  | none, _ => none
  | some c, .typeId => some c.file_type_depth
  | some c, .sigSha256 => some c.file_signature_depth
  | some _, .other => none

/- ------------------------------------------------------------------ -/
/- Helper lemmas -/
/- ------------------------------------------------------------------ -/

theorem findIdx?_some_bound (p : Nat → Bool) :
    ∀ (l : List Nat) (i : Nat), List.findIdx? p l = some i → i < l.length := by
  intro l
  induction l with
  | nil => intro i h; simp [List.findIdx?] at h
  | cons a t ih =>
    intro i h
    rw [List.findIdx?_cons] at h
    by_cases hp : p a
    · simp [hp] at h
      simp [List.length_cons]
      omega
    · simp [hp] at h
      obtain ⟨a', ha', hi⟩ := h
      have := ih a' ha'
      simp [List.length_cons]
      omega

theorem cvsGetEOL_bounds (data : List Nat) (line : Nat) (h : line < data.length) :
    line < (cvsGetEOL data line).1 ∧ (cvsGetEOL data line).1 ≤ data.length := by
  unfold cvsGetEOL
  cases hf : (data.drop line).findIdx? (fun c => c == 10) with
  | none => simpa using h
  | some i =>
    have hb := findIdx?_some_bound _ _ _ hf
    have hlen : (data.drop line).length = data.length - line := List.length_drop ..
    rw [hlen] at hb
    simp only
    omega

theorem cvsDecodeLoop_isSome :
    ∀ (fuel : Nat) (t : CvsTypes) (data : List Nat) (line : Nat),
      data.length - line < fuel → (cvsDecodeLoop fuel t data line).isSome = true := by
  intro fuel
  induction fuel with
  | zero => intro t data line h; omega
  | succ n ih =>
    intro t data line h
    simp only [cvsDecodeLoop]
    by_cases hl : line < data.length
    · obtain ⟨h1, h2⟩ := cvsGetEOL_bounds data line hl
      rw [if_pos hl]
      by_cases ht : cvsLineTrigger t data (line, (cvsGetEOL data line).2, (cvsGetEOL data line).1)
      · simp [ht]
      · simp only [ht, if_neg, Bool.false_eq_true, if_false]
        exact ih t data (cvsGetEOL data line).1 (by omega)
    · simp [hl]

theorem cvsLinesLoop_isSome :
    ∀ (fuel : Nat) (data : List Nat) (line : Nat),
      data.length - line < fuel → (cvsLinesLoop fuel data line).isSome = true := by
  intro fuel
  induction fuel with
  | zero => intro data line h; omega
  | succ n ih =>
    intro data line h
    simp only [cvsLinesLoop]
    by_cases hl : line < data.length
    · obtain ⟨h1, h2⟩ := cvsGetEOL_bounds data line hl
      rw [if_pos hl]
      have := ih data (cvsGetEOL data line).1 (by omega)
      cases hr : cvsLinesLoop n data (cvsGetEOL data line).1 with
      | none => rw [hr] at this; simp at this
      | some ls => simp
    · simp [hl]

/- ------------------------------------------------------------------ -/
/- Claim theorems: file_lib -/
/- ------------------------------------------------------------------ -/

/-- C3: the depth limiter returns the stop sentinel when processed_bytes
exceeds the configured depth for the kind, clamps to the remaining budget on
an overshoot, and otherwise passes the requested length through; with no
configuration, or no depth for the kind, the request is unmodified.  In
particular a 10-byte chunk with max_type_depth 5 and processed_bytes 0 is
clamped to 5. -/
theorem c3_depth_limit_rule :
    (∀ (context : FileContext) (t : FileProcessType) (ds : Nat),
        get_data_size_from_depth_limit context t ds
          = depthRuleSpec context.processed_bytes (maxDepthFor context t) ds)
      ∧ get_data_size_from_depth_limit
          { freshFileContext with
              file_config := some { file_type_depth := 5, file_signature_depth := 0 } }
          .typeId 10 = 5 := by
  constructor
  · intro context t ds
    cases h : context.file_config with
    | none => simp [get_data_size_from_depth_limit, depthRuleSpec, maxDepthFor, h]
    | some c =>
      cases t <;>
        simp [get_data_size_from_depth_limit, depthRuleSpec, maxDepthFor, h]
  · decide

/-- C4: with classification still in state Continue, a depth-limiter stop
sets type_state to Unknown and changes nothing else (for every position); and
at End or Full position a classifier that still answers Continue is forced to
Unknown. -/
theorem c4_type_id_stop_and_finalize
    (cl : List Nat → Nat → Option Nat → FileTypeState × Option Nat)
    (ctx1 ctx2 : FileContext) (d : List Nat) (ds1 ds2 : Nat) (pos : FilePosition)
    (h1 : ctx1.file_type_id = .cont)
    (h2 : ctx2.file_type_id = .cont)
    (hstop : get_data_size_from_depth_limit ctx1 .typeId ds1 < 0)
    (hgo : 0 ≤ get_data_size_from_depth_limit ctx2 .typeId ds2)
    (hclEnd : (cl d (get_data_size_from_depth_limit ctx2 .typeId ds2).toNat
        ctx2.file_type_context).1 = .cont)
    (hclFull : (cl d (get_data_size_from_depth_limit ctx2 .typeId ds2).toNat none).1
        = .cont) :
    file_type_id cl ctx1 d ds1 pos = { ctx1 with file_type_id := .unknown }
      ∧ (file_type_id cl ctx2 d ds2 .end_).file_type_id = .unknown
      ∧ (file_type_id cl ctx2 d ds2 .full).file_type_id = .unknown := by
  refine ⟨?_, ?_, ?_⟩
  · simp [file_type_id, h1, hstop]
  · simp [file_type_id, h2, hclEnd, if_neg (by omega : ¬ get_data_size_from_depth_limit ctx2 .typeId ds2 < 0)]
  · simp [file_type_id, h2, hclFull, if_neg (by omega : ¬ get_data_size_from_depth_limit ctx2 .typeId ds2 < 0)]

theorem c4_witness :
    (({ freshFileContext with
          file_config := some { file_type_depth := 0, file_signature_depth := 0 },
          processed_bytes := 1 } : FileContext).file_type_id = .cont)
      ∧ file_type_id (fun _ _ _ => (.cont, none))
          { freshFileContext with
              file_config := some { file_type_depth := 0, file_signature_depth := 0 },
              processed_bytes := 1 } [7] 1 .middle
        = { freshFileContext with
              file_config := some { file_type_depth := 0, file_signature_depth := 0 },
              processed_bytes := 1, file_type_id := .unknown }
      ∧ (file_type_id (fun _ _ _ => (.cont, none)) freshFileContext [7] 1 .end_).file_type_id
          = .unknown
      ∧ (file_type_id (fun _ _ _ => (.cont, none)) freshFileContext [7] 1 .full).file_type_id
          = .unknown :=
  ⟨by decide,
    (c4_type_id_stop_and_finalize (fun _ _ _ => (.cont, none))
      { freshFileContext with
          file_config := some { file_type_depth := 0, file_signature_depth := 0 },
          processed_bytes := 1 }
      freshFileContext [7] 1 1 .middle (by decide) (by decide) (by decide) (by decide)
      (by decide) (by decide)).1,
    (c4_type_id_stop_and_finalize (fun _ _ _ => (.cont, none))
      { freshFileContext with
          file_config := some { file_type_depth := 0, file_signature_depth := 0 },
          processed_bytes := 1 }
      freshFileContext [7] 1 1 .middle (by decide) (by decide) (by decide) (by decide)
      (by decide) (by decide)).2.1,
    (c4_type_id_stop_and_finalize (fun _ _ _ => (.cont, none))
      { freshFileContext with
          file_config := some { file_type_depth := 0, file_signature_depth := 0 },
          processed_bytes := 1 }
      freshFileContext [7] 1 1 .middle (by decide) (by decide) (by decide) (by decide)
      (by decide) (by decide)).2.2⟩

/-- C5: once type_state is anything other than Continue, any further call
(for any classifier, data, size and position) leaves the whole context
unchanged, and the state never returns to Continue. -/
theorem c5_type_state_final
    (cl : List Nat → Nat → Option Nat → FileTypeState × Option Nat)
    (context : FileContext) (d : List Nat) (ds : Nat) (pos : FilePosition)
    (h : context.file_type_id ≠ .cont) :
    file_type_id cl context d ds pos = context
      ∧ (file_type_id cl context d ds pos).file_type_id ≠ .cont := by
  have he : file_type_id cl context d ds pos = context := by
    unfold file_type_id
    rw [if_pos h]
  exact ⟨he, by rw [he]; exact h⟩

theorem c5_witness :
    (({ freshFileContext with file_type_id := .unknown } : FileContext).file_type_id ≠ .cont)
      ∧ file_type_id (fun _ _ _ => (.cont, none))
          { freshFileContext with file_type_id := .unknown } [1] 1 .start
        = { freshFileContext with file_type_id := .unknown } :=
  ⟨by decide,
    (c5_type_state_final (fun _ _ _ => (.cont, none))
      { freshFileContext with file_type_id := .unknown } [1] 1 .start (by decide)).1⟩

/-- C8: when the depth limiter signals stop for the Signature kind, the call
is a complete no-op: the context (digest state, final signature, everything)
is returned exactly as it was. -/
theorem c8_sig_depth_stop_noop (h : List Nat → List Nat) (context : FileContext)
    (d : List Nat) (ds : Nat) (pos : FilePosition)
    (hstop : get_data_size_from_depth_limit context .sigSha256 ds < 0) :
    file_signature_sha256 h context d ds pos = context := by
  unfold file_signature_sha256
  rw [if_pos hstop]

theorem c8_witness :
    get_data_size_from_depth_limit
        { freshFileContext with
            file_config := some { file_type_depth := 0, file_signature_depth := 0 },
            processed_bytes := 1 } .sigSha256 3 < 0
      ∧ file_signature_sha256 (fun l => l)
          { freshFileContext with
              file_config := some { file_type_depth := 0, file_signature_depth := 0 },
              processed_bytes := 1 } [9, 9, 9] 3 .end_
        = { freshFileContext with
              file_config := some { file_type_depth := 0, file_signature_depth := 0 },
              processed_bytes := 1 } :=
  ⟨by decide,
    c8_sig_depth_stop_noop (fun l => l)
      { freshFileContext with
          file_config := some { file_type_depth := 0, file_signature_depth := 0 },
          processed_bytes := 1 } [9, 9, 9] 3 .end_ (by decide)⟩

/-- C7 counterexample: with final_signature already set, feeding one more
terminal (Full) chunk overwrites it — the stored signature is NOT immutable
under further chunks, because file_signature_sha256 has no guard against a
second terminal chunk. -/
theorem c7_counterexample :
    (file_signature_sha256 (fun l => l)
        { freshFileContext with sha256 := some [1] } [2] 1 .full).sha256
      ≠ ({ freshFileContext with sha256 := some [1] } : FileContext).sha256 := by
  decide

/-- C7 amended: final_signature is set only by a terminal (End or Full) chunk;
further Start or Middle chunks never change it, but a further End or Full
chunk that passes the depth limiter recomputes and overwrites it with the
digest of the bytes fed so far. -/
theorem c7_amended_signature_set (h : List Nat → List Nat) (context : FileContext)
    (d : List Nat) (ds : Nat) :
    (file_signature_sha256 h context d ds .start).sha256 = context.sha256
      ∧ (file_signature_sha256 h context d ds .middle).sha256 = context.sha256
      ∧ (0 ≤ get_data_size_from_depth_limit context .sigSha256 ds →
          (file_signature_sha256 h context d ds .end_).sha256
              = some (h ((context.file_signature_context.getD [])
                  ++ d.take (get_data_size_from_depth_limit context .sigSha256 ds).toNat))
            ∧ (file_signature_sha256 h context d ds .full).sha256
              = some (h (d.take
                  (get_data_size_from_depth_limit context .sigSha256 ds).toNat))) := by
  by_cases hstop : get_data_size_from_depth_limit context .sigSha256 ds < 0
  · refine ⟨?_, ?_, fun hge => absurd hstop (by omega)⟩ <;>
      simp [file_signature_sha256, hstop]
  · refine ⟨?_, ?_, fun _ => ⟨?_, ?_⟩⟩ <;> simp [file_signature_sha256, hstop]

theorem c7_witness :
    0 ≤ get_data_size_from_depth_limit freshFileContext .sigSha256 1
      ∧ (file_signature_sha256 (fun l => l) freshFileContext [1] 1 .end_).sha256 = some [1] :=
  ⟨by decide,
    ((c7_amended_signature_set (fun l => l) freshFileContext [1] 1).2.2 (by decide)).1⟩

/-- C9: absent inputs resolve defensively in the evaluator and in
file_signature_sha256, but NOT in file_type_id: the C code reads
context->file_config before its null-context guard, so a NULL context crashes
(null-pointer dereference) instead of the documented no-op. -/
theorem c9_defensive_absent_inputs :
    cvsEval .invalidEntry none = .detNoMatch
      ∧ cvsEval .invalidEntry (some { tcph := none, data := some [65], dsize := 1 })
          = .detNoMatch
      ∧ cvsEval .invalidEntry (some { tcph := some (), data := none, dsize := 1 })
          = .detNoMatch
      ∧ cvsEval .invalidEntry (some { tcph := some (), data := some [65], dsize := 0 })
          = .detNoMatch
      ∧ file_signature_sha256_checked (fun l => l) none [65] 1 .start = none
      ∧ file_type_id_checked (fun _ _ _ => (.unknown, none)) none [65] 1 .start
          = Except.error .nullContextDeref :=
  ⟨rfl, rfl, rfl, rfl, rfl, rfl⟩

/-- C10: CvsDecode terminates: from any line start inside the buffer,
CvsGetEOL yields an end-of-line strictly past the line start and at most the
buffer end (the buffer end exactly when no delimiter remains), so the scan
loop finishes within length+1 iterations. -/
theorem c10_decode_terminates (data : List Nat) (line : Nat) (t : CvsTypes)
    (h : line < data.length) :
    line < (cvsGetEOL data line).1
      ∧ (cvsGetEOL data line).1 ≤ data.length
      ∧ ((data.drop line).findIdx? (fun c => c == 10) = none →
          (cvsGetEOL data line).1 = data.length)
      ∧ (cvsDecodeLoop (data.length + 1) t data line).isSome = true := by
  obtain ⟨h1, h2⟩ := cvsGetEOL_bounds data line h
  refine ⟨h1, h2, ?_, cvsDecodeLoop_isSome _ _ _ _ (by omega)⟩
  intro hn
  unfold cvsGetEOL
  rw [hn]

theorem c10_witness :
    0 < ([10, 65] : List Nat).length ∧ 0 < (cvsGetEOL [10, 65] 0).1 :=
  ⟨by decide, (c10_decode_terminates [10, 65] 0 .invalidEntry (by decide)).1⟩

theorem gds_noconfig (context : FileContext) (t : FileProcessType) (n : Nat)
    (hc : context.file_config = none) :
    get_data_size_from_depth_limit context t n = (n : Int) := by
  simp [get_data_size_from_depth_limit, hc]

theorem fss_start_noconfig (h : List Nat → List Nat) (context : FileContext)
    (m : List Nat) (hc : context.file_config = none) :
    file_signature_sha256 h context m m.length .start
      = { context with file_signature_context := some m } := by
  unfold file_signature_sha256
  rw [gds_noconfig context _ _ hc]
  simp

theorem fss_middle_noconfig (h : List Nat → List Nat) (context : FileContext)
    (m : List Nat) (hc : context.file_config = none) :
    file_signature_sha256 h context m m.length .middle
      = { context with
            file_signature_context :=
              some ((context.file_signature_context.getD []) ++ m) } := by
  unfold file_signature_sha256
  rw [gds_noconfig context _ _ hc]
  simp

theorem fss_end_noconfig (h : List Nat → List Nat) (context : FileContext)
    (m : List Nat) (hc : context.file_config = none) :
    file_signature_sha256 h context m m.length .end_
      = { context with
            file_signature_context :=
              some ((context.file_signature_context.getD []) ++ m),
            sha256 := some (h ((context.file_signature_context.getD []) ++ m)) } := by
  unfold file_signature_sha256
  rw [gds_noconfig context _ _ hc]
  simp

theorem fss_full_noconfig (h : List Nat → List Nat) (context : FileContext)
    (m : List Nat) (hc : context.file_config = none) :
    file_signature_sha256 h context m m.length .full
      = { context with
            file_signature_context := some m,
            sha256 := some (h m) } := by
  unfold file_signature_sha256
  rw [gds_noconfig context _ _ hc]
  simp

theorem fss_fold_middle_noconfig (h : List Nat → List Nat) :
    ∀ (ms : List (List Nat)) (context : FileContext) (b : List Nat),
      context.file_config = none → context.file_signature_context = some b →
      ((ms.foldl (fun c m => file_signature_sha256 h c m m.length .middle)
          context).file_config = none
        ∧ (ms.foldl (fun c m => file_signature_sha256 h c m m.length .middle)
            context).file_signature_context = some (b ++ ms.flatten)) := by
  intro ms
  induction ms with
  | nil => intro context b hc hb; simpa using ⟨hc, hb⟩
  | cons m ms ih =>
    intro context b hc hb
    simp only [List.foldl_cons]
    rw [fss_middle_noconfig h context m hc, hb]
    have := ih { context with file_signature_context := some (b ++ m) }
      (b ++ m) (by simpa using hc) (by simp)
    simpa [List.append_assoc] using this

/-- C6: with no depth limit configured, the final signature of one Full chunk
equals the final signature of the same bytes delivered as one Start chunk,
any list of Middle chunks, and one End chunk. -/
theorem c6_whole_eq_chunked (h : List Nat → List Nat) (s e : List Nat)
    (ms : List (List Nat)) :
    (file_signature_sha256 h freshFileContext (s ++ ms.flatten ++ e)
        (s ++ ms.flatten ++ e).length .full).sha256
      = (file_signature_sha256 h
          (ms.foldl (fun c m => file_signature_sha256 h c m m.length .middle)
            (file_signature_sha256 h freshFileContext s s.length .start))
          e e.length .end_).sha256 := by
  have hc0 : freshFileContext.file_config = none := rfl
  rw [fss_full_noconfig h freshFileContext _ hc0]
  rw [fss_start_noconfig h freshFileContext s hc0]
  obtain ⟨hcf, hsf⟩ := fss_fold_middle_noconfig h ms
    { freshFileContext with file_signature_context := some s } s (by simp [hc0]) (by simp)
  rw [fss_end_noconfig h _ e hcf, hsf]
  simp [List.append_assoc]

theorem cvsDecodeLoop_eq_any :
    ∀ (fuel : Nat) (t : CvsTypes) (data : List Nat) (line : Nat),
      data.length - line < fuel →
      cvsDecodeLoop fuel t data line
        = some (((cvsLinesLoop fuel data line).getD []).any (cvsLineTrigger t data)) := by
  intro fuel
  induction fuel with
  | zero => intro t data line h; omega
  | succ n ih =>
    intro t data line h
    simp only [cvsDecodeLoop, cvsLinesLoop]
    by_cases hl : line < data.length
    · obtain ⟨h1, h2⟩ := cvsGetEOL_bounds data line hl
      rw [if_pos hl, if_pos hl]
      have hrec : data.length - (cvsGetEOL data line).1 < n := by omega
      have hsome := cvsLinesLoop_isSome n data (cvsGetEOL data line).1 hrec
      cases hr : cvsLinesLoop n data (cvsGetEOL data line).1 with
      | none => rw [hr] at hsome; simp at hsome
      | some ls =>
        by_cases ht : cvsLineTrigger t data (line, (cvsGetEOL data line).2, (cvsGetEOL data line).1)
        · simp [ht]
        · simp only [ht, Bool.false_eq_true, if_false]
          rw [ih t data (cvsGetEOL data line).1 hrec, hr]
          simp [ht]
    · simp [hl]

/-- C2 counterexample: a payload whose first line is "entry x" (lower-case
name, argument with zero slashes, a further byte following) satisfies the
claim's case-insensitive trigger on a line of the buffer, yet CvsDecode
returns no alert: the comparison in CvsCmdCompare is memcmp, i.e.
case-SENSITIVE, so the claim's "case-insensitively" is wrong. -/
theorem c2_counterexample :
    cvsDecode .invalidEntry [101, 110, 116, 114, 121, 32, 120, 10, 77] = false
      ∧ (0, 7, 8) ∈ cvsLines [101, 110, 116, 114, 121, 32, 120, 10, 77]
      ∧ cvsLineTriggerCI [101, 110, 116, 114, 121, 32, 120, 10, 77] (0, 7, 8) = true := by
  refine ⟨by decide, by decide, by decide⟩

/-- C2 amended: CvsDecode (invalid-entry) alerts exactly when some line of
the buffer has a command name byte-for-byte equal to "Entry" (case
SENSITIVE), an argument that validates as Invalid, and at least one more byte
of data after the line; otherwise it reaches the end of the buffer with no
alert. -/
theorem c2_amended_match_iff (data : List Nat) :
    cvsDecode .invalidEntry data = true
      ↔ ∃ tr ∈ cvsLines data, cvsLineTrigger .invalidEntry data tr = true := by
  have hb := cvsDecodeLoop_eq_any (data.length + 1) .invalidEntry data 0 (by omega)
  unfold cvsDecode cvsLines
  rw [hb]
  simp [List.any_eq_true]
/-- Declarative description of the CvsValidateEntry loop outcome: with 4 or
more slashes already counted the third-slash gate is behind us and the loop
just counts the remaining slashes; otherwise the byte right after the
(3 - s)-th further slash decides between counting on and early Invalid. -/
def cvsLoopSpec (s : Nat) (l : List Nat) : Option (Option Nat) :=
  if 4 ≤ s then some (some (s + slashCount l))
  else
    match afterNthSlash (3 - s) l with
    | some (c :: _) =>
      if c = 47 ∨ c = 43 then some (some (s + slashCount l)) else some none
    | _ => some (some (s + slashCount l))

theorem slashCount_nil : slashCount [] = 0 := rfl

theorem slashCount_cons_47 (t : List Nat) : slashCount (47 :: t) = slashCount t + 1 := by
  simp [slashCount, List.countP_cons]

theorem slashCount_cons_ne (c : Nat) (t : List Nat) (h : c ≠ 47) :
    slashCount (c :: t) = slashCount t := by
  simp [slashCount, List.countP_cons, h]

theorem slashCount_dropWhile (l : List Nat) :
    slashCount (l.dropWhile (fun b => b != 47)) = slashCount l := by
  induction l with
  | nil => rfl
  | cons c t ih =>
    by_cases hc : c = 47
    · subst hc
      simp [List.dropWhile_cons]
    · have hb : (c != 47) = true := by simp [hc]
      rw [List.dropWhile_cons]
      simp only [hb, if_true]
      rw [ih, slashCount_cons_ne c t hc]

theorem dropWhile47_head :
    ∀ (l : List Nat) (c : Nat) (t : List Nat),
      l.dropWhile (fun b => b != 47) = c :: t → c = 47 := by
  intro l
  induction l with
  | nil => intro c t h; simp at h
  | cons a l' ih =>
    intro c t h
    rw [List.dropWhile_cons] at h
    by_cases ha : a = 47
    · subst ha
      simp at h
      obtain ⟨h1, _⟩ := h
      omega
    · have hb : (a != 47) = true := by simp [ha]
      simp only [hb, if_true] at h
      exact ih c t h

theorem dropWhile_length_le (p : Nat → Bool) (l : List Nat) :
    (l.dropWhile p).length ≤ l.length := by
  induction l with
  | nil => simp
  | cons a t ih =>
    rw [List.dropWhile_cons]
    by_cases hp : p a
    · simp only [hp, if_true]
      exact le_trans ih (by simp)
    · simp [hp]

theorem afterNthSlash_zero (l : List Nat) : afterNthSlash 0 l = some l := rfl

theorem afterNthSlash_succ (k : Nat) (l : List Nat) :
    afterNthSlash (k + 1) l =
      match l.dropWhile (fun b => b != 47) with
      | [] => none
      | _ :: t => afterNthSlash k t := rfl

theorem afterNthSlash_none_count :
    ∀ (n : Nat) (l : List Nat), afterNthSlash n l = none → slashCount l < n := by
  intro n
  induction n with
  | zero => intro l h; simp [afterNthSlash_zero] at h
  | succ k ih =>
    intro l h
    rw [afterNthSlash_succ] at h
    cases hd : l.dropWhile (fun b => b != 47) with
    | nil =>
      have h0 := slashCount_dropWhile l
      rw [hd, slashCount_nil] at h0
      omega
    | cons c t =>
      rw [hd] at h
      have hc := dropWhile47_head l c t hd
      have h0 := slashCount_dropWhile l
      rw [hd, hc, slashCount_cons_47] at h0
      have h1 := ih t h
      omega

theorem afterNthSlash_some_count :
    ∀ (n : Nat) (l r : List Nat), afterNthSlash n l = some r →
      slashCount l = n + slashCount r := by
  intro n
  induction n with
  | zero =>
    intro l r h
    rw [afterNthSlash_zero] at h
    cases h
    omega
  | succ k ih =>
    intro n r h
    rw [afterNthSlash_succ] at h
    cases hd : n.dropWhile (fun b => b != 47) with
    | nil => rw [hd] at h; simp at h
    | cons c t =>
      rw [hd] at h
      have hc := dropWhile47_head n c t hd
      have h0 := slashCount_dropWhile n
      rw [hd, hc, slashCount_cons_47] at h0
      have h1 := ih t r h
      omega

theorem cvsLoopSpec_ge4 (s : Nat) (l : List Nat) (h : 4 ≤ s) :
    cvsLoopSpec s l = some (some (s + slashCount l)) := by
  unfold cvsLoopSpec
  rw [if_pos h]

theorem cvsLoopSpec_le3 (s : Nat) (l : List Nat) (h : s ≤ 3) :
    cvsLoopSpec s l =
      match afterNthSlash (3 - s) l with
      | some (c :: _) =>
        if c = 47 ∨ c = 43 then some (some (s + slashCount l)) else some none
      | _ => some (some (s + slashCount l)) := by
  unfold cvsLoopSpec
  rw [if_neg (by omega)]

theorem cvsLoopSpec_nil (s : Nat) : cvsLoopSpec s [] = some (some s) := by
  by_cases h4 : 4 ≤ s
  · rw [cvsLoopSpec_ge4 _ _ h4, slashCount_nil, Nat.add_zero]
  · rw [cvsLoopSpec_le3 _ _ (by omega)]
    cases h35 : 3 - s with
    | zero =>
      rw [afterNthSlash_zero]
      simp [slashCount_nil]
    | succ k =>
      rw [afterNthSlash_succ]
      simp [slashCount_nil]

theorem cvsLoopSpec_gate (c : Nat) (rest : List Nat) (hc47 : c ≠ 47) (hc43 : c ≠ 43) :
    cvsLoopSpec 3 (c :: rest) = some none := by
  rw [cvsLoopSpec_le3 _ _ (by omega)]
  simp [afterNthSlash_zero, hc47, hc43]

theorem cvsLoopSpec_slash (s : Nat) (rest : List Nat) :
    cvsLoopSpec s (47 :: rest) = cvsLoopSpec (s + 1) rest := by
  have hcnt := slashCount_cons_47 rest
  by_cases h4 : 4 ≤ s
  · rw [cvsLoopSpec_ge4 _ _ h4, cvsLoopSpec_ge4 _ _ (by omega), hcnt]
    simp only [Option.some.injEq]
    omega
  · by_cases h3 : s = 3
    · subst h3
      rw [cvsLoopSpec_le3 _ _ (by omega), cvsLoopSpec_ge4 _ _ (by omega), hcnt]
      have hEq : (3 : Nat) + (slashCount rest + 1) = 4 + slashCount rest := by omega
      simp [afterNthSlash_zero, hEq]
    · rw [cvsLoopSpec_le3 _ _ (by omega), cvsLoopSpec_le3 _ _ (by omega)]
      have hscrut : afterNthSlash (3 - s) (47 :: rest) = afterNthSlash (3 - (s + 1)) rest := by
        have h2 : 3 - s = (3 - (s + 1)) + 1 := by omega
        rw [h2, afterNthSlash_succ]
        simp [List.dropWhile_cons]
      have hEq : s + slashCount (47 :: rest) = s + 1 + slashCount rest := by
        rw [hcnt]; omega
      rw [hscrut, hEq]

theorem cvsLoopSpec_skip (s c : Nat) (rest t : List Nat)
    (hc : c ≠ 47) (h3 : s = 3 → c = 43) (c' : Nat)
    (hd : (c :: rest).dropWhile (fun b => b != 47) = c' :: t) :
    cvsLoopSpec s (c :: rest) = cvsLoopSpec (s + 1) t := by
  have hc' : c' = 47 := dropWhile47_head _ _ _ hd
  subst hc'
  have hcnt : slashCount (c :: rest) = slashCount t + 1 := by
    have h0 := slashCount_dropWhile (c :: rest)
    rw [hd, slashCount_cons_47] at h0
    omega
  by_cases h4 : 4 ≤ s
  · rw [cvsLoopSpec_ge4 _ _ h4, cvsLoopSpec_ge4 _ _ (by omega), hcnt]
    simp only [Option.some.injEq]
    omega
  · by_cases hs3 : s = 3
    · subst hs3
      have hc43 : c = 43 := h3 rfl
      subst hc43
      rw [cvsLoopSpec_le3 _ _ (by omega), cvsLoopSpec_ge4 _ _ (by omega), hcnt]
      have hEq : (3 : Nat) + (slashCount t + 1) = 4 + slashCount t := by omega
      simp [afterNthSlash_zero, hEq]
    · rw [cvsLoopSpec_le3 _ _ (by omega), cvsLoopSpec_le3 _ _ (by omega)]
      have hscrut : afterNthSlash (3 - s) (c :: rest) = afterNthSlash (3 - (s + 1)) t := by
        have h2 : 3 - s = (3 - (s + 1)) + 1 := by omega
        rw [h2, afterNthSlash_succ, hd]
      have hEq : s + slashCount (c :: rest) = s + 1 + slashCount t := by
        rw [hcnt]; omega
      rw [hscrut, hEq]

theorem cvsLoopSpec_stuck (s c : Nat) (rest : List Nat)
    (h3 : s = 3 → c = 43)
    (hd : (c :: rest).dropWhile (fun b => b != 47) = []) :
    cvsLoopSpec s (c :: rest) = some (some s) := by
  have hcnt : slashCount (c :: rest) = 0 := by
    have h0 := slashCount_dropWhile (c :: rest)
    rw [hd, slashCount_nil] at h0
    omega
  by_cases h4 : 4 ≤ s
  · rw [cvsLoopSpec_ge4 _ _ h4, hcnt, Nat.add_zero]
  · by_cases hs3 : s = 3
    · subst hs3
      have hc43 : c = 43 := h3 rfl
      subst hc43
      rw [cvsLoopSpec_le3 _ _ (by omega)]
      simp [afterNthSlash_zero, hcnt]
    · rw [cvsLoopSpec_le3 _ _ (by omega)]
      have hscrut : afterNthSlash (3 - s) (c :: rest) = none := by
        have h2 : 3 - s = (3 - (s + 1)) + 1 := by omega
        rw [h2, afterNthSlash_succ, hd]
      rw [hscrut]
      simp [hcnt]

theorem cvsValidateLoop_eq :
    ∀ (fuel s : Nat) (l : List Nat), l.length < fuel →
      cvsValidateLoop fuel s l = cvsLoopSpec s l := by
  intro fuel
  induction fuel with
  | zero => intro s l h; omega
  | succ n ih =>
    intro s l h
    match l with
    | [] => rw [cvsLoopSpec_nil]; rfl
    | c :: rest =>
      simp only [cvsValidateLoop]
      by_cases hg : s = 3 ∧ c ≠ 47 ∧ c ≠ 43
      · rw [if_pos hg, hg.1, cvsLoopSpec_gate c rest hg.2.1 hg.2.2]
      · rw [if_neg hg]
        by_cases hc : c = 47
        · rw [if_neg (by simp [hc])]
          subst hc
          rw [ih (s + 1) rest (by simp [List.length_cons] at h; omega), cvsLoopSpec_slash]
        · rw [if_pos hc]
          have h3 : s = 3 → c = 43 := by
            intro hs
            by_contra hne
            exact hg ⟨hs, hc, hne⟩
          cases hd : (c :: rest).dropWhile (fun b => b != 47) with
          | nil =>
            rw [cvsLoopSpec_stuck s c rest h3 hd]
          | cons c' t =>
            have hlen : t.length < n := by
              have h1 := dropWhile_length_le (fun b => b != 47) (c :: rest)
              rw [hd] at h1
              simp [List.length_cons] at h1 h
              omega
            show cvsValidateLoop n (s + 1) t = cvsLoopSpec s (c :: rest)
            rw [ih (s + 1) t hlen, cvsLoopSpec_skip s c rest t hc h3 c' hd]

theorem cvsValidateEntry_some (l : List Nat) :
    cvsValidateEntry (some l) =
      match afterNthSlash 3 l with
      | some (c :: _) =>
        if c = 47 ∨ c = 43 then (slashCount l == 5) else false
      | _ => (slashCount l == 5) := by
  simp only [cvsValidateEntry]
  rw [cvsValidateLoop_eq (l.length + 1) 0 l (by omega)]
  have hspec := cvsLoopSpec_le3 0 l (by omega)
  rw [Nat.sub_zero] at hspec
  rw [hspec]
  cases ha : afterNthSlash 3 l with
  | none => simp
  | some r =>
    cases r with
    | nil => simp
    | cons c0 r' =>
      by_cases hcb : c0 = 47 ∨ c0 = 43
      · simp [hcb]
      · simp [hcb]

/-- C1 counterexample: an empty (non-null) argument range is judged
CVS_ENTRY_INVALID by the code (zero slashes, not five), not vacuously Valid as
the claim words it. -/
theorem c1_counterexample : cvsValidateEntry (some []) = false := by decide

/-- C1 amended: a null argument is vacuously Valid; any non-null byte range
(including the empty one) is Valid exactly when it contains exactly 5 slash
separators and the byte immediately following the 3rd slash is a slash or a
plus. -/
theorem c1_amended_valid_iff (arg : Option (List Nat)) :
    cvsValidateEntry arg = true ↔
      (arg = none
        ∨ ∃ l, arg = some l ∧ slashCount l = 5
            ∧ ∃ c r, afterNthSlash 3 l = some (c :: r) ∧ (c = 47 ∨ c = 43)) := by
  cases arg with
  | none => simp [cvsValidateEntry]
  | some l =>
    rw [cvsValidateEntry_some l]
    cases ha : afterNthSlash 3 l with
    | none =>
      have hlt := afterNthSlash_none_count 3 l ha
      constructor
      · intro h5
        exfalso
        simp at h5
        omega
      · rintro (h | ⟨l', hl', hcnt, c, r, har, hcr⟩)
        · simp at h
        · injection hl' with hll
          subst hll
          rw [ha] at har
          simp at har
    | some r =>
      have hcount := afterNthSlash_some_count 3 l r ha
      have h0 : slashCount ([] : List Nat) = 0 := slashCount_nil
      cases r with
      | nil =>
        constructor
        · intro h5
          exfalso
          simp at h5
          omega
        · rintro (h | ⟨l', hl', hcnt, c, r', har, hcr⟩)
          · simp at h
          · injection hl' with hll
            subst hll
            rw [ha] at har
            simp at har
      | cons c0 r' =>
        by_cases hcb : c0 = 47 ∨ c0 = 43
        · constructor
          · intro h5
            simp [hcb] at h5
            exact Or.inr ⟨l, rfl, h5, c0, r', ha, hcb⟩
          · rintro (h | ⟨l', hl', hcnt, c, r'', har, hcr⟩)
            · simp at h
            · injection hl' with hll
              subst hll
              simp [hcb, hcnt]
        · constructor
          · intro h5
            exfalso
            simp [hcb] at h5
          · rintro (h | ⟨l', hl', hcnt, c, r'', har, hcr⟩)
            · simp at h
            · injection hl' with hll
              subst hll
              rw [ha] at har
              exfalso
              simp at har
              rcases har with ⟨h1, h2⟩
              subst h1
              exact hcb hcr

/- End-to-end scenario checks from the spec: a well-formed entry passes, the
malformed 4-slash entry with a following line alerts, an all-lower-case
command name does not. -/
example : cvsValidateEntry (some [47,99,118,115,46,99,47,49,46,53,47,47,47]) = true := by decide
example : cvsValidateEntry (some [47,99,118,115,46,99,88,88,49,46,53,47,47,47]) = false := by decide
example : cvsValidateEntry (some []) = false := by decide
example : cvsValidateEntry none = true := by decide
example : cvsDecode .invalidEntry
    [69,110,116,114,121,32,47,99,118,115,46,99,88,88,49,46,53,47,47,47,10,77,10] = true := by decide
example : cvsDecode .invalidEntry
    [69,110,116,114,121,32,47,99,118,115,46,99,47,49,46,53,47,47,47,10,85,10] = false := by decide
example : cvsDecode .invalidEntry [101,110,116,114,121,32,120,10,77] = false := by decide
example : cvsLineTriggerCI [101,110,116,114,121,32,120,10,77] (0, 7, 8) = true := by decide
example : (0, 7, 8) ∈ cvsLines [101,110,116,114,121,32,120,10,77] := by decide
example :
    get_data_size_from_depth_limit
      { freshFileContext with
          file_config := some { file_type_depth := 5, file_signature_depth := 0 } }
      .typeId 10 = 5 := by decide
example :
    get_data_size_from_depth_limit
      { freshFileContext with
          file_config := some { file_type_depth := 5, file_signature_depth := 0 },
          processed_bytes := 6 }
      .typeId 10 = -1 := by decide
example :
    (file_signature_sha256 (fun l => l) freshFileContext [1,2,3] 3 .full).sha256
      = some [1,2,3] := by decide
example :
    file_type_id (fun _ _ _ => (.cont, none))
      { freshFileContext with file_type_id := .unknown } [1] 1 .start
      = { freshFileContext with file_type_id := .unknown } := by decide
example :
    (file_type_id (fun _ _ _ => (.cont, some 7)) freshFileContext [1] 1 .end_).file_type_id
      = .unknown := by decide
example :
    file_type_id_checked (fun _ _ _ => (.cont, none)) none [1] 1 .start
      = Except.error .nullContextDeref := rfl
